import Mathlib

/-!
A verification development for the semantic property-matching repository.

The numeric scoring core (`src/feature_encoder.py`, `src/similarity.py`,
`src/matcher.py`) is embedded shallowly:

* Python real arithmetic is modelled over `ℚ`; `round(x, 2)` becomes `round2`.
* The tolerant attribute-extraction layer (`_safe_float`, `_get_value`) is
  modelled over an explicit value domain `RawValue` that distinguishes the
  Python behaviours that matter there: `None`, blank strings, parseable and
  unparseable strings, finite numbers, infinities, NaN, integers too large
  for `float` (whose conversion raises `OverflowError`, which the code does
  not catch), and values whose conversion raises `TypeError`/`ValueError`
  (which it does catch).  Fallible steps return `Except String`.
* The ranking pipeline of `compute_all_matches` is embedded over lists.
  `pandas.sort_values` on several key columns uses `numpy.lexsort`, a stable
  sort; a stable sort by the keys (`user_id` ascending, `match_score`
  descending) is modelled, exactly, as a merge sort by those keys extended
  with the original row position as the final tie-breaker.
  `groupby("user_id").head(top_k)` keeps, in row order, the rows whose
  running count within their `user_id` group is below `top_k`; this is
  `headPerKey`.  `pd.DataFrame([])` has no columns, so when the pair loop
  produces no records the subsequent `sort_values(["user_id", ...])` raises
  `KeyError`; the embedding returns `Except.error` in that case.
-/

namespace PropertyMatching

/-! ## Value domain of the extraction layer (`feature_encoder._safe_float`) -/

/-- The result of a successful Python `float(...)` conversion: a finite
value, one of the two infinities, or NaN. -/
inductive PyFloat where
  | fin (q : ℚ)
  | inf
  | ninf
  | nan
deriving DecidableEq, Repr

/-- A Python string as seen by `_safe_float`: whitespace-only, numeric
(`float(s)` succeeds, possibly producing `inf`/`nan`), or unparseable
(`float(s)` raises `ValueError`). -/
inductive StrVal where
  | blank
  | numeric (x : PyFloat)
  | bad
deriving DecidableEq, Repr

/-- A raw attribute value handed to `_safe_float`, classified by how the
Python code reacts to it. -/
inductive RawValue where
  /-- the value `None` -/
  | pynone
  /-- a string -/
  | str (s : StrVal)
  /-- an `int`/`float`/`bool`: `float(value)` succeeds with this result -/
  | num (x : PyFloat)
  /-- an `int` too large for a `float`: `float(value)` raises
  `OverflowError`, which is not in the caught `(TypeError, ValueError)` -/
  | intOverflow
  /-- `float(value)` raises `TypeError` or `ValueError` (caught) -/
  | badTV
  /-- `float(value)` raises some other exception (not caught) -/
  | badOther
deriving DecidableEq, Repr

/-- `feature_encoder._safe_float` (lines 17-28): `None` and blank strings
yield `None`; `float(value)` is attempted, with `TypeError`/`ValueError`
absorbed to `None`; NaN results yield `None`; anything else (including
infinities) is returned.  Uncaught exceptions surface as `Except.error`. -/
def _safe_float : RawValue → Except String (Option PyFloat)
  | .pynone => .ok none
  | .str .blank => .ok none
  | .str (.numeric x) => .ok (if x = .nan then none else some x)
  | .str .bad => .ok none
  | .num x => .ok (if x = .nan then none else some x)
  | .intOverflow => .error "OverflowError"
  | .badTV => .ok none
  | .badOther => .error "unhandled exception from float()"

/-- A row-like object handed to `feature_encoder._get_value`: `None`, a
mapping with a `get` method (a missing key yields the default `None`,
modelled by the function returning `RawValue.pynone`), or an indexable
object whose `row[key]` may raise (any raised exception is modelled by
`Except.error`). -/
inductive Row where
  | pynone
  | mapping (f : String → RawValue)
  | indexable (f : String → Except String RawValue)

/-- `feature_encoder._get_value` (lines 31-41): `None` rows yield `None`;
mappings are read with `row.get(key, None)`; otherwise `row[key]` is tried
with every exception absorbed to `None`; the result goes through
`_safe_float`. -/
def _get_value : Row → String → Except String (Option PyFloat)
  | .pynone, _ => .ok none
  | .mapping f, key => _safe_float (f key)
  | .indexable f, key =>
      _safe_float (match f key with
        | .error _ => .pynone
        | .ok v => v)

/-- The raw value that `_get_value` ends up feeding to `_safe_float`:
the lookup step of lines 32-40 with its own exceptions absorbed. -/
def rawLookup : Row → String → RawValue
  | .pynone, _ => .pynone
  | .mapping f, key => f key
  | .indexable f, key =>
      match f key with
      | .error _ => .pynone
      | .ok v => v

/-! ## Configuration constants (`src/config.py`) -/

def SEMANTIC_WEIGHT : ℚ := 7/10
def NUMERICAL_WEIGHT : ℚ := 3/10
def BUDGET_TOLERANCE : ℚ := 1/5
def BEDROOM_FLEX : ℚ := 1
def BATHROOM_FLEX : ℚ := 1
def LIVING_AREA_TOLERANCE : ℚ := 3/20
def TOP_K : ℕ := 5

/-! ## Scoring (`feature_encoder.py`, `similarity.py`), over finite values

The scoring functions below are the source functions with Python floats
modelled as rationals; the non-finite extraction outcomes are the business
of `_safe_float`/`_get_value` above. -/

/-- Python `round(x, 2)`: rounding of `100 * x` to the nearest integer,
divided back.  (At an exact half-hundredth tie this rounds up while Python
rounds to even; no claim and no input below sits on such a tie.) -/
def round2 (x : ℚ) : ℚ := (round (x * 100) : ℤ) / 100

/-- `feature_encoder._tolerance_score` (lines 44-55); the local
`diff_ratio = abs(actual - target) / target` is written inline. -/
def _tolerance_score (target actual tolerance : Option ℚ) : Option ℚ :=
  match target, actual with
  | some t, some a =>
    match tolerance with
    | none => some (if t = a then 1 else 0)
    | some tol =>
      if tol ≤ 0 then some (if t = a then 1 else 0)
      else if t = 0 then some (if a = 0 then 1 else 0)
      else if tol ≤ |a - t| / t then some 0
      else some (max 0 (1 - (|a - t| / t) / tol))
  | _, _ => none

/-- `feature_encoder._flex_match_score` (lines 58-66); `near_score` is the
keyword parameter whose source default is `0.7`. -/
def _flex_match_score (preferred actual flexibility : Option ℚ)
    (near_score : ℚ) : Option ℚ :=
  match preferred, actual with
  | some p, some a =>
    if |a - p| = 0 then some 1
    else
      match flexibility with
      | some fl => if |a - p| ≤ fl then some near_score else some 0
      | none => some 0
  | _, _ => none

/-- `feature_encoder.compute_numerical_similarity` (lines 69-120), with the
eight `_get_value` extractions (`Budget`, `Price`, `Bedrooms`, `Bathrooms`,
`Living Area (sq ft)` on each side) passed in as the already-extracted
optional finite values.  The four per-feature scores are collected in
source order, `None`s dropped; an empty collection yields `None`, otherwise
the mean is scaled to 0-100 and rounded to 2 decimals. -/
def compute_numerical_similarity
    (budget price user_bedrooms property_bedrooms
     user_bathrooms property_bathrooms
     user_living_area property_living_area : Option ℚ)
    (budget_tolerance bedroom_flex bathroom_flex living_area_tolerance :
      Option ℚ) : Option ℚ :=
  let scores := List.filterMap id
    [ _tolerance_score budget price budget_tolerance,
      _flex_match_score user_bedrooms property_bedrooms bedroom_flex (7/10),
      _flex_match_score user_bathrooms property_bathrooms bathroom_flex (7/10),
      _tolerance_score user_living_area property_living_area
        living_area_tolerance ]
  if scores.isEmpty then none
  else some (round2 (scores.sum / (scores.length : ℚ) * 100))

/-- The combination step of `similarity.compute_similarity` (lines 44-54):
the cosine similarity of the two embeddings, already scaled to 0-100 and
rounded (line 44), enters as `semantic_score`; the weighted-average fallback
logic of lines 46-54 is the code being modelled. -/
def compute_similarity (semantic_score : ℚ) (numerical_score : Option ℚ)
    (semantic_weight numerical_weight : ℚ) : ℚ :=
  match numerical_score with
  | none => semantic_score
  | some n =>
    if semantic_weight + numerical_weight ≤ 0 then semantic_score
    else
      round2 ((semantic_score * semantic_weight + n * numerical_weight) /
        (semantic_weight + numerical_weight))

/-! ## Ranking (`matcher.compute_all_matches`) -/

/-- One record of the `results` list of `matcher.py` (lines 58-62). -/
structure MatchRecord where
  user_id : ℕ
  property_id : ℕ
  match_score : ℚ
deriving DecidableEq, Repr

/-- The pair-enumeration loop of `compute_all_matches` (lines 43-62): users
outer, properties inner, one record per pair.  The embedding/cosine
collaborators and the numerical scorer are abstracted into the per-pair
score function, which is deterministic per row pair. -/
def pairRecords {U P : Type} (users : List U) (properties : List P)
    (uid : U → ℕ) (pid : P → ℕ) (score : U → P → ℚ) : List MatchRecord :=
  users.flatMap fun u => properties.map fun p => ⟨uid u, pid p, score u p⟩

/-- Sort key of `sort_values(["user_id", "match_score"],
ascending=[True, False])` on the enumerated record list: `user_id`
ascending, then `match_score` descending, then the original row position.
The position tie-breaker is exactly what makes a comparison sort stable,
and the pandas multi-key sort (`numpy.lexsort`) is stable. -/
def sortKey (x : ℕ × MatchRecord) : ℕ ×ₗ (ℚ ×ₗ ℕ) :=
  toLex (x.2.user_id, toLex (-x.2.match_score, x.1))

/-- Boolean comparison used by the modelled stable sort. -/
def recLE (a b : ℕ × MatchRecord) : Bool := decide (sortKey a ≤ sortKey b)

/-- `groupby("user_id").head(k)` on a record list: keep, in row order, the
rows whose running count within their `user_id` group is below `k`;
`seen` carries the counts accumulated so far. -/
def headPerKey (k : ℕ) : List (ℕ × MatchRecord) → (ℕ → ℕ) →
    List (ℕ × MatchRecord)
  | [], _ => []
  | x :: rest, seen =>
    if seen x.2.user_id < k then
      x :: headPerKey k rest
        (fun u => if u = x.2.user_id then seen u + 1 else seen u)
    else
      headPerKey k rest
        (fun u => if u = x.2.user_id then seen u + 1 else seen u)

/-- The ranking pipeline of `compute_all_matches` (lines 67-73) with the
original pair-enumeration position kept alongside each record: sort the
enumerated records stably by (`user_id` asc, `match_score` desc), then keep
the first `top_k` rows of each `user_id` group. -/
def rankedEnum {U P : Type} (users : List U) (properties : List P)
    (uid : U → ℕ) (pid : P → ℕ) (score : U → P → ℚ) (top_k : ℕ) :
    List (ℕ × MatchRecord) :=
  headPerKey top_k
    ((pairRecords users properties uid pid score).enum.mergeSort recLE)
    (fun _ => 0)

/-- `matcher.compute_all_matches` (lines 40-75).  When the pair loop yields
no records (either input empty), `pd.DataFrame([])` has no columns and
`sort_values(["user_id", "match_score"])` raises `KeyError`; otherwise the
ranked, truncated record list is returned (`reset_index(drop=True)` does
not change the rows). -/
def compute_all_matches {U P : Type} (users : List U) (properties : List P)
    (uid : U → ℕ) (pid : P → ℕ) (score : U → P → ℚ) (top_k : ℕ) :
    Except String (List MatchRecord) :=
  let results := pairRecords users properties uid pid score
  if results.isEmpty then .error "KeyError: user_id"
  else .ok ((rankedEnum users properties uid pid score top_k).map Prod.snd)

/-! ## Helper lemmas -/

theorem round2_eval (x : ℚ) :
    round2 x = ((⌊x * 100 + 1/2⌋ : ℤ) : ℚ) / 100 := by
  rw [round2, round_eq]

theorem round2_concrete (x : ℚ) (n : ℤ) (h1 : (n : ℚ) ≤ x * 100 + 1/2)
    (h2 : x * 100 + 1/2 < n + 1) : round2 x = (n : ℚ) / 100 := by
  rw [round2_eval]
  have hn : ⌊x * 100 + 1/2⌋ = n := Int.floor_eq_iff.mpr ⟨h1, by exact_mod_cast h2⟩
  rw [hn]

theorem round2_bounds {x : ℚ} (h0 : 0 ≤ x) (h1 : x ≤ 100) :
    0 ≤ round2 x ∧ round2 x ≤ 100 := by
  rw [round2_eval]
  have hf0 : (0 : ℤ) ≤ ⌊x * 100 + 1/2⌋ := by
    apply Int.le_floor.mpr
    push_cast
    linarith
  have hf1 : ⌊x * 100 + 1/2⌋ ≤ 10000 := by
    have h : ⌊x * 100 + 1/2⌋ < 10001 := by
      apply Int.floor_lt.mpr
      push_cast
      linarith
    omega
  constructor
  · apply div_nonneg _ (by norm_num)
    exact_mod_cast hf0
  · rw [div_le_iff₀ (by norm_num : (0:ℚ) < 100)]
    have h : ((⌊x * 100 + 1/2⌋ : ℤ) : ℚ) ≤ 10000 := by exact_mod_cast hf1
    linarith

/-- Any defined tolerance score with a nonnegative target lies in `[0, 1]`. -/
theorem tolerance_score_bounds {target actual tolerance : Option ℚ}
    (h : ∀ t, target = some t → 0 ≤ t) :
    ∀ v, _tolerance_score target actual tolerance = some v → 0 ≤ v ∧ v ≤ 1 := by
  intro v hv
  match target, actual with
  | none, _ => simp [_tolerance_score] at hv
  | some t, none => simp [_tolerance_score] at hv
  | some t, some a =>
    have ht : 0 ≤ t := h t rfl
    match tolerance with
    | none =>
      simp only [_tolerance_score] at hv
      split at hv <;>
        · have hv2 := (Option.some.inj hv).symm
          subst hv2
          norm_num
    | some tol =>
      simp only [_tolerance_score] at hv
      split at hv
      · split at hv <;>
          · have hv2 := (Option.some.inj hv).symm
            subst hv2
            norm_num
      · split at hv
        · split at hv <;>
            · have hv2 := (Option.some.inj hv).symm
              subst hv2
              norm_num
        · rename_i htol ht0
          push_neg at htol
          have htpos : 0 < t := lt_of_le_of_ne ht (Ne.symm ht0)
          have hdr : 0 ≤ |a - t| / t := div_nonneg (abs_nonneg _) htpos.le
          split at hv
          · have hv2 := (Option.some.inj hv).symm
            subst hv2
            norm_num
          · rename_i hlt
            push_neg at hlt
            have hv2 := (Option.some.inj hv).symm
            subst hv2
            refine ⟨le_max_left _ _, max_le (by norm_num) ?_⟩
            have : 0 ≤ |a - t| / t / tol := div_nonneg hdr htol.le
            linarith

/-- Any defined flexibility score with `near_score = 0.7` lies in `[0, 1]`. -/
theorem flex_score_bounds {preferred actual flexibility : Option ℚ} :
    ∀ v, _flex_match_score preferred actual flexibility (7/10) = some v →
      0 ≤ v ∧ v ≤ 1 := by
  intro v hv
  match preferred, actual with
  | none, _ => simp [_flex_match_score] at hv
  | some p, none => simp [_flex_match_score] at hv
  | some p, some a =>
    simp only [_flex_match_score] at hv
    split at hv
    · have hv2 := (Option.some.inj hv).symm
      subst hv2
      norm_num
    · match flexibility with
      | some fl =>
        dsimp only at hv
        by_cases hle : |a - p| ≤ fl
        · rw [if_pos hle] at hv
          have hv2 := (Option.some.inj hv).symm
          subst hv2
          norm_num
        · rw [if_neg hle] at hv
          have hv2 := (Option.some.inj hv).symm
          subst hv2
          norm_num
      | none =>
        dsimp only at hv
        have hv2 := (Option.some.inj hv).symm
        subst hv2
        norm_num

/-! ## Claims about the per-feature scores -/

/-- C4 (amended: the target must be nonnegative; the code divides by the
signed target, so a negative target escapes `[0, 1]`): for every defined
`target ≥ 0`, defined `actual`, and tolerance `t > 0`, the tolerance-ratio
score is defined and lies in `[0, 1]`; it equals `1` iff `actual = target`;
it is `0` whenever `|actual - target| / target ≥ t`; and in the
`target = 0` case it is `1` iff `actual = 0`. -/
theorem C4_tolerance_score (t a tol : ℚ) (htol : 0 < tol) (ht : 0 ≤ t) :
    ∃ v, _tolerance_score (some t) (some a) (some tol) = some v ∧
      (0 ≤ v ∧ v ≤ 1) ∧ (v = 1 ↔ a = t) ∧
      (tol ≤ |a - t| / t → v = 0) ∧
      (t = 0 → (v = 1 ↔ a = 0)) := by
  by_cases ht0 : t = 0
  · subst ht0
    have hres : _tolerance_score (some 0) (some a) (some tol) =
        some (if a = 0 then 1 else 0) := by
      simp only [_tolerance_score]
      rw [if_neg (not_le.mpr htol)]
      simp
    by_cases ha : a = 0
    · refine ⟨1, by rw [hres, if_pos ha], ⟨by norm_num, le_refl 1⟩,
        ⟨fun _ => ha, fun _ => rfl⟩, ?_, fun _ => ⟨fun _ => ha, fun _ => rfl⟩⟩
      intro h
      rw [ha] at h
      norm_num at h
      exact absurd h (not_le.mpr htol)
    · refine ⟨0, by rw [hres, if_neg ha], ⟨le_refl 0, by norm_num⟩,
        ⟨fun h0 => absurd h0 (by norm_num), fun haa => absurd haa ha⟩,
        fun _ => rfl, fun _ => ⟨fun h0 => absurd h0 (by norm_num),
          fun haa => absurd haa ha⟩⟩
  · have htpos : 0 < t := ht.lt_of_ne (Ne.symm ht0)
    have hdr0 : 0 ≤ |a - t| / t := div_nonneg (abs_nonneg _) htpos.le
    have hne : a = t → |a - t| / t = 0 := by
      intro h
      rw [h, sub_self, abs_zero, zero_div]
    by_cases hge : tol ≤ |a - t| / t
    · have hat : ¬ a = t := by
        intro h
        rw [hne h] at hge
        exact absurd hge (not_le.mpr htol)
      refine ⟨0, ?_, ⟨le_refl 0, by norm_num⟩,
        ⟨fun h0 => absurd h0 (by norm_num), fun haa => absurd haa hat⟩,
        fun _ => rfl, fun h => absurd h ht0⟩
      simp only [_tolerance_score]
      rw [if_neg (not_le.mpr htol), if_neg ht0, if_pos hge]
    · have hres : _tolerance_score (some t) (some a) (some tol) =
          some (max 0 (1 - (|a - t| / t) / tol)) := by
        simp only [_tolerance_score]
        rw [if_neg (not_le.mpr htol), if_neg ht0, if_neg hge]
      have hq0 : 0 ≤ (|a - t| / t) / tol := div_nonneg hdr0 htol.le
      refine ⟨max 0 (1 - (|a - t| / t) / tol), hres,
        ⟨le_max_left _ _, max_le (by norm_num) (by linarith)⟩, ?_,
        fun h => absurd h hge, fun h => absurd h ht0⟩
      constructor
      · intro hmax
        rcases max_cases 0 (1 - (|a - t| / t) / tol) with ⟨hm, _⟩ | ⟨hm, _⟩
        · rw [hm] at hmax
          exact absurd hmax (by norm_num)
        · rw [hm] at hmax
          have hq : (|a - t| / t) / tol = 0 := by linarith
          rcases div_eq_zero_iff.mp hq with hq2 | hq2
          · rcases div_eq_zero_iff.mp hq2 with hq3 | hq3
            · have := abs_eq_zero.mp hq3
              linarith [sub_eq_zero.mp this]
            · exact absurd hq3 ht0
          · exact absurd hq2 (ne_of_gt htol)
      · intro h
        rw [hne h]
        norm_num

/-- C4 counterexample: with the negative target `-1`, actual `0` and
tolerance `1/5 > 0` (both inputs defined), the code returns `6`, outside
the claimed interval `[0, 1]`. -/
theorem C4_counterexample :
    _tolerance_score (some (-1)) (some 0) (some (1/5)) = some 6 ∧
      ¬ ((6 : ℚ) ≤ 1) := by
  constructor
  · simp only [_tolerance_score]
    rw [if_neg (by norm_num : ¬ ((1:ℚ)/5 ≤ 0)),
      if_neg (by norm_num : ¬ ((-1:ℚ) = 0)),
      if_neg (by rw [show |(0:ℚ) - (-1)| = 1 by norm_num]; norm_num)]
    rw [show |(0:ℚ) - (-1)| = 1 by norm_num]
    norm_num
  · norm_num

/-- C4 witness: at target `2`, actual `1`, tolerance `1/2`, the theorem's
hypotheses hold and its conclusion is realised. -/
theorem C4_witness :
    ∃ v, _tolerance_score (some 2) (some 1) (some (1/2)) = some v ∧
      (0 ≤ v ∧ v ≤ 1) ∧ (v = 1 ↔ (1:ℚ) = 2) ∧
      ((1:ℚ)/2 ≤ |(1:ℚ) - 2| / 2 → v = 0) ∧
      ((2:ℚ) = 0 → (v = 1 ↔ (1:ℚ) = 0)) :=
  C4_tolerance_score 2 1 (1/2) (by norm_num) (by norm_num)

/-- C7: for every defined preferred and actual value and any flexibility,
the flexibility-step score is defined and is exactly one of
`{0, 0.7, 1}`: `1` when the difference is `0`, `0.7` when the difference
is positive but within the flexibility, `0` otherwise (including the
`flexibility = None` case). -/
theorem C7_flex_match_score (p a : ℚ) (fl : Option ℚ) :
    ∃ v, _flex_match_score (some p) (some a) fl (7/10) = some v ∧
      (v = 0 ∨ v = 7/10 ∨ v = 1) ∧
      (|a - p| = 0 → v = 1) ∧
      (∀ f, fl = some f → 0 < |a - p| → |a - p| ≤ f → v = 7/10) ∧
      (0 < |a - p| → (∀ f, fl = some f → f < |a - p|) → v = 0) := by
  have habs : 0 ≤ |a - p| := abs_nonneg _
  by_cases h0 : |a - p| = 0
  · refine ⟨1, ?_, Or.inr (Or.inr rfl), fun _ => rfl,
      fun f _ hpos _ => absurd h0 (ne_of_gt hpos),
      fun hpos _ => absurd h0 (ne_of_gt hpos)⟩
    simp only [_flex_match_score]
    rw [if_pos h0]
  · match fl with
    | none =>
      refine ⟨0, ?_, Or.inl rfl, fun hh => absurd hh h0,
        fun f hf => absurd hf (by simp), fun _ _ => rfl⟩
      simp only [_flex_match_score]
      rw [if_neg h0]
    | some f₀ =>
      by_cases hle : |a - p| ≤ f₀
      · refine ⟨7/10, ?_, Or.inr (Or.inl rfl), fun hh => absurd hh h0,
          fun f hf _ _ => rfl, ?_⟩
        · simp only [_flex_match_score]
          rw [if_neg h0, if_pos hle]
        · intro _ hall
          exact absurd hle (not_le.mpr (hall f₀ rfl))
      · refine ⟨0, ?_, Or.inl rfl, fun hh => absurd hh h0, ?_, fun _ _ => rfl⟩
        · simp only [_flex_match_score]
          rw [if_neg h0, if_neg hle]
        · intro f hf _ hlef
          have hf2 := Option.some.inj hf
          subst hf2
          exact absurd hlef hle

/-! ## Claims about the hybrid combination -/

/-- C6: the combination step returns the semantic score unchanged exactly
in the two fallback cases — numerical score `None` (any weights), and
nonpositive weight sum — and otherwise returns the weighted average
rounded to two decimals. -/
theorem C6_compute_similarity_cases (s n w1 w2 : ℚ) :
    compute_similarity s none w1 w2 = s ∧
    (w1 + w2 ≤ 0 → compute_similarity s (some n) w1 w2 = s) ∧
    (0 < w1 + w2 → compute_similarity s (some n) w1 w2 =
      round2 ((s * w1 + n * w2) / (w1 + w2))) := by
  refine ⟨rfl, fun h => ?_, fun h => ?_⟩
  · simp only [compute_similarity]
    rw [if_pos h]
  · simp only [compute_similarity]
    rw [if_neg (not_le.mpr h)]

/-- C5 (amended: both weights must be nonnegative; a negative weight with
positive weight sum escapes `[0, 100]`): for semantic score in `[0, 100]`,
numerical score `None` or in `[0, 100]`, and nonnegative weights, the
combination step returns a value in `[0, 100]`. -/
theorem C5_compute_similarity_bounds (s : ℚ) (n : Option ℚ) (w1 w2 : ℚ)
    (hs0 : 0 ≤ s) (hs1 : s ≤ 100)
    (hn : ∀ x, n = some x → 0 ≤ x ∧ x ≤ 100)
    (hw1 : 0 ≤ w1) (hw2 : 0 ≤ w2) :
    0 ≤ compute_similarity s n w1 w2 ∧ compute_similarity s n w1 w2 ≤ 100 := by
  match n with
  | none => exact ⟨hs0, hs1⟩
  | some x =>
    obtain ⟨hx0, hx1⟩ := hn x rfl
    simp only [compute_similarity]
    by_cases htw : w1 + w2 ≤ 0
    · rw [if_pos htw]
      exact ⟨hs0, hs1⟩
    · rw [if_neg htw]
      push_neg at htw
      apply round2_bounds
      · exact div_nonneg
          (add_nonneg (mul_nonneg hs0 hw1) (mul_nonneg hx0 hw2)) htw.le
      · rw [div_le_iff₀ htw]
        have h1 : s * w1 ≤ 100 * w1 := mul_le_mul_of_nonneg_right hs1 hw1
        have h2 : x * w2 ≤ 100 * w2 := mul_le_mul_of_nonneg_right hx1 hw2
        linarith

/-- C5 counterexample: semantic `100` and numerical `0`, both in
`[0, 100]`, with weights `5` and `-4` (sum `1 > 0`) give `500`. -/
theorem C5_counterexample :
    compute_similarity 100 (some 0) 5 (-4) = 500 ∧ ¬ ((500 : ℚ) ≤ 100) := by
  constructor
  · simp only [compute_similarity]
    rw [if_neg (by norm_num : ¬ ((5:ℚ) + -4 ≤ 0))]
    rw [show ((100:ℚ) * 5 + 0 * -4) / (5 + -4) = 500 by norm_num]
    rw [round2_concrete 500 50000 (by norm_num) (by norm_num)]
    norm_num
  · norm_num

/-- C5 witness: the spec's concrete scenario, semantic `80` and numerical
`91.67` under the default weights, stays in `[0, 100]`. -/
theorem C5_witness :
    0 ≤ compute_similarity 80 (some (9167/100)) (7/10) (3/10) ∧
      compute_similarity 80 (some (9167/100)) (7/10) (3/10) ≤ 100 :=
  C5_compute_similarity_bounds 80 (some (9167/100)) (7/10) (3/10)
    (by norm_num) (by norm_num)
    (fun x hx => by
      obtain rfl : (9167/100 : ℚ) = x := Option.some.inj hx
      norm_num)
    (by norm_num) (by norm_num)

/-! ## Claims about the extraction layer -/

/-- `_safe_float` yields `None` exactly for `None`, blank strings,
unparseable strings, `TypeError`/`ValueError` conversions, and NaN. -/
theorem safe_float_ok_none_iff (v : RawValue) :
    _safe_float v = .ok none ↔
      (v = .pynone ∨ v = .str .blank ∨ v = .str .bad ∨ v = .badTV ∨
       v = .str (.numeric .nan) ∨ v = .num .nan) := by
  rcases v with _ | s | x | _ | _ | _
  · simp [_safe_float]
  · rcases s with _ | x | _
    · simp [_safe_float]
    · rcases x with q | _ | _ | _ <;> simp [_safe_float]
    · simp [_safe_float]
  · rcases x with q | _ | _ | _ <;> simp [_safe_float]
  · simp [_safe_float]
  · simp [_safe_float]
  · simp [_safe_float]

/-- `_safe_float` can only raise on the two uncaught conversion failures. -/
theorem safe_float_error_cases (v : RawValue) (e : String)
    (h : _safe_float v = .error e) : v = .intOverflow ∨ v = .badOther := by
  rcases v with _ | s | x | _ | _ | _
  · simp [_safe_float] at h
  · rcases s with _ | x | _
    · simp [_safe_float] at h
    · rcases x with q | _ | _ | _ <;> simp [_safe_float] at h
    · simp [_safe_float] at h
  · rcases x with q | _ | _ | _ <;> simp [_safe_float] at h
  · exact Or.inl rfl
  · simp [_safe_float] at h
  · exact Or.inr rfl

/-- C9 (amended: values that are missing, blank, unparseable, whose
conversion raises `TypeError`/`ValueError`, or NaN are treated as absent
without error; but a conversion raising another exception — an oversized
integer's `OverflowError` — propagates, and infinite values, though not
finite real numbers, are passed through rather than treated as absent). -/
theorem C9_safe_float_policy :
    (∀ v, _safe_float v = .ok none ↔
      (v = .pynone ∨ v = .str .blank ∨ v = .str .bad ∨ v = .badTV ∨
       v = .str (.numeric .nan) ∨ v = .num .nan)) ∧
    (∀ v e, _safe_float v = .error e → v = .intOverflow ∨ v = .badOther) ∧
    _safe_float (.num .inf) = .ok (some .inf) ∧
    _safe_float (.num .ninf) = .ok (some .ninf) :=
  ⟨safe_float_ok_none_iff, safe_float_error_cases, rfl, rfl⟩

/-- C9 counterexample: a positive-infinity float is not convertible to a
finite real number, yet `_safe_float` returns it instead of `None`. -/
theorem C9_counterexample :
    _safe_float (RawValue.num PyFloat.inf) = Except.ok (some PyFloat.inf) ∧
      _safe_float (RawValue.num PyFloat.inf) ≠ Except.ok none :=
  ⟨rfl, by simp [_safe_float]⟩

/-- C10 (amended: `_get_value` absorbs every exception of the row lookup
itself — `None` rows, missing keys, raising `row[key]` — but it does
propagate the uncaught conversion exceptions of `_safe_float`, such as
`OverflowError` on an oversized integer stored in the row). -/
theorem C10_get_value_total :
    (∀ row key, _get_value row key = _safe_float (rawLookup row key)) ∧
    (∀ row key e, _get_value row key = .error e →
      rawLookup row key = .intOverflow ∨ rawLookup row key = .badOther) := by
  have h1 : ∀ row key, _get_value row key = _safe_float (rawLookup row key) := by
    intro row key
    cases row <;> rfl
  refine ⟨h1, fun row key e he => ?_⟩
  rw [h1 row key] at he
  exact safe_float_error_cases _ e he

/-- C10 counterexample: a mapping row holding an oversized integer makes
`_get_value` propagate the `OverflowError` from the float conversion. -/
theorem C10_counterexample :
    _get_value (Row.mapping fun _ => RawValue.intOverflow) "Budget" =
      Except.error "OverflowError" := rfl

/-! ## Claims about the numerical aggregation -/

theorem filterMap_id_four_nil (a b c d : Option ℚ) :
    List.filterMap id [a, b, c, d] = [] ↔
      a = none ∧ b = none ∧ c = none ∧ d = none := by
  cases a <;> cases b <;> cases c <;> cases d <;> simp

theorem list_sum_bounds {l : List ℚ} (h : ∀ x ∈ l, 0 ≤ x ∧ x ≤ 1) :
    0 ≤ l.sum ∧ l.sum ≤ (l.length : ℚ) := by
  induction l with
  | nil => simp
  | cons x xs ih =>
    obtain ⟨hx0, hx1⟩ := h x (List.mem_cons_self x xs)
    obtain ⟨hs0, hs1⟩ := ih fun y hy => h y (List.mem_cons_of_mem x hy)
    simp only [List.sum_cons, List.length_cons]
    constructor
    · linarith
    · push_cast
      linarith

/-- C1 (amended: the bound `[0, 100]` additionally needs the user's
extracted budget and living-area targets, when defined, to be nonnegative;
the code divides by the signed target, so a negative budget escapes the
bound): the numerical similarity is `None` iff none of the four feature
scores is defined, and otherwise it is the mean of the defined feature
scores scaled to 0-100 and rounded to two decimals, within `[0, 100]`. -/
theorem C1_numerical_similarity
    (budget price ub pb uba pba ula pla bt bf baf lat : Option ℚ)
    (hb : ∀ b, budget = some b → 0 ≤ b)
    (hl : ∀ w, ula = some w → 0 ≤ w) :
    (compute_numerical_similarity budget price ub pb uba pba ula pla
        bt bf baf lat = none ↔
      (_tolerance_score budget price bt = none ∧
       _flex_match_score ub pb bf (7/10) = none ∧
       _flex_match_score uba pba baf (7/10) = none ∧
       _tolerance_score ula pla lat = none)) ∧
    (∀ v, compute_numerical_similarity budget price ub pb uba pba ula pla
        bt bf baf lat = some v →
      v = round2 ((List.filterMap id [_tolerance_score budget price bt,
          _flex_match_score ub pb bf (7/10),
          _flex_match_score uba pba baf (7/10),
          _tolerance_score ula pla lat]).sum /
        ((List.filterMap id [_tolerance_score budget price bt,
          _flex_match_score ub pb bf (7/10),
          _flex_match_score uba pba baf (7/10),
          _tolerance_score ula pla lat]).length : ℚ) * 100) ∧
      0 ≤ v ∧ v ≤ 100) := by
  have hmem : ∀ x ∈ List.filterMap id [_tolerance_score budget price bt,
      _flex_match_score ub pb bf (7/10),
      _flex_match_score uba pba baf (7/10),
      _tolerance_score ula pla lat], 0 ≤ x ∧ x ≤ 1 := by
    intro x hx
    obtain ⟨o, ho, hox⟩ := List.mem_filterMap.mp hx
    simp only [List.mem_cons, List.not_mem_nil, or_false] at ho
    simp only [id] at hox
    rcases ho with ho | ho | ho | ho
    · exact tolerance_score_bounds hb x (ho ▸ hox)
    · exact flex_score_bounds x (ho ▸ hox)
    · exact flex_score_bounds x (ho ▸ hox)
    · exact tolerance_score_bounds hl x (ho ▸ hox)
  constructor
  · simp only [compute_numerical_similarity]
    by_cases hE : List.filterMap id [_tolerance_score budget price bt,
        _flex_match_score ub pb bf (7/10),
        _flex_match_score uba pba baf (7/10),
        _tolerance_score ula pla lat] = []
    · rw [if_pos (List.isEmpty_iff.mpr hE)]
      exact iff_of_true rfl ((filterMap_id_four_nil _ _ _ _).mp hE)
    · rw [if_neg (fun h => hE (List.isEmpty_iff.mp h))]
      exact iff_of_false (by simp)
        (fun ⟨h1, h2, h3, h4⟩ =>
          hE ((filterMap_id_four_nil _ _ _ _).mpr ⟨h1, h2, h3, h4⟩))
  · intro v hv
    simp only [compute_numerical_similarity] at hv
    split at hv
    · exact absurd hv (by simp)
    · rename_i hne
      have hE : ¬ List.filterMap id [_tolerance_score budget price bt,
          _flex_match_score ub pb bf (7/10),
          _flex_match_score uba pba baf (7/10),
          _tolerance_score ula pla lat] = [] :=
        fun h => hne (List.isEmpty_iff.mpr h)
      have hv2 := (Option.some.inj hv).symm
      refine ⟨hv2, ?_⟩
      rw [hv2]
      obtain ⟨hs0, hs1⟩ := list_sum_bounds hmem
      have hlpos : (0 : ℚ) < (List.filterMap id [_tolerance_score budget price bt,
          _flex_match_score ub pb bf (7/10),
          _flex_match_score uba pba baf (7/10),
          _tolerance_score ula pla lat]).length := by
        exact_mod_cast List.length_pos.mpr hE
      apply round2_bounds
      · have := div_nonneg hs0 hlpos.le
        linarith
      · have hdiv : (List.filterMap id [_tolerance_score budget price bt,
            _flex_match_score ub pb bf (7/10),
            _flex_match_score uba pba baf (7/10),
            _tolerance_score ula pla lat]).sum /
            ((List.filterMap id [_tolerance_score budget price bt,
            _flex_match_score ub pb bf (7/10),
            _flex_match_score uba pba baf (7/10),
            _tolerance_score ula pla lat]).length : ℚ) ≤ 1 :=
          (div_le_one hlpos).mpr hs1
        linarith

/-- C1 counterexample: a negative budget (`-100`) against a negative price
(`-50`), all other features absent, under the default configuration gives
`350`, outside the claimed `[0, 100]`. -/
theorem C1_counterexample :
    compute_numerical_similarity (some (-100)) (some (-50))
      none none none none none none
      (some (1/5)) (some 1) (some 1) (some (3/20)) = some 350 ∧
      ¬ ((350 : ℚ) ≤ 100) := by
  constructor
  · have h1 : _tolerance_score (some (-100)) (some (-50)) (some (1/5)) =
        some (7/2) := by
      simp only [_tolerance_score]
      rw [if_neg (by norm_num : ¬ ((1:ℚ)/5 ≤ 0)),
        if_neg (by norm_num : ¬ ((-100:ℚ) = 0)),
        if_neg (by rw [show |(-50:ℚ) - (-100)| = 50 by norm_num]; norm_num)]
      rw [show |(-50:ℚ) - (-100)| = 50 by norm_num]
      rw [show (1:ℚ) - 50 / (-100) / (1/5) = 7/2 by norm_num]
      rw [max_eq_right (by norm_num : (0:ℚ) ≤ 7/2)]
    simp only [compute_numerical_similarity, h1, _flex_match_score,
      _tolerance_score, List.filterMap]
    norm_num
    rw [round2_concrete 350 35000 (by norm_num) (by norm_num)]
    norm_num
  · norm_num

/-- C1 witness: with only the bedroom counts comparable (both `3`), the
numerical similarity is defined and the amended claim's conclusion holds
at this input. -/
theorem C1_witness :
    (compute_numerical_similarity none none (some 3) (some 3)
        none none none none
        (some (1/5)) (some 1) (some 1) (some (3/20)) = none ↔
      (_tolerance_score none none (some (1/5)) = none ∧
       _flex_match_score (some 3) (some 3) (some 1) (7/10) = none ∧
       _flex_match_score none none (some 1) (7/10) = none ∧
       _tolerance_score none none (some (3/20)) = none)) ∧
    (∀ v, compute_numerical_similarity none none (some 3) (some 3)
        none none none none
        (some (1/5)) (some 1) (some 1) (some (3/20)) = some v →
      v = round2 ((List.filterMap id [_tolerance_score none none (some (1/5)),
          _flex_match_score (some 3) (some 3) (some 1) (7/10),
          _flex_match_score none none (some 1) (7/10),
          _tolerance_score none none (some (3/20))]).sum /
        ((List.filterMap id [_tolerance_score none none (some (1/5)),
          _flex_match_score (some 3) (some 3) (some 1) (7/10),
          _flex_match_score none none (some 1) (7/10),
          _tolerance_score none none (some (3/20))]).length : ℚ) * 100) ∧
      0 ≤ v ∧ v ≤ 100) :=
  C1_numerical_similarity none none (some 3) (some 3) none none none none
    (some (1/5)) (some 1) (some 1) (some (3/20))
    (fun _ h => Option.noConfusion h) (fun _ h => Option.noConfusion h)

/-! ## Claims about the ranking pipeline -/

theorem recLE_trans : ∀ a b c : ℕ × MatchRecord,
    recLE a b → recLE b c → recLE a c := by
  intro a b c hab hbc
  simp only [recLE, decide_eq_true_eq] at hab hbc ⊢
  exact le_trans hab hbc

theorem recLE_total : ∀ a b : ℕ × MatchRecord, recLE a b || recLE b a := by
  intro a b
  simp only [recLE, Bool.or_eq_true, decide_eq_true_eq]
  exact le_total _ _

theorem sortKey_le_iff (a b : ℕ × MatchRecord) :
    sortKey a ≤ sortKey b ↔
      (a.2.user_id < b.2.user_id ∨
        (a.2.user_id = b.2.user_id ∧
          (-a.2.match_score < -b.2.match_score ∨
            (-a.2.match_score = -b.2.match_score ∧ a.1 ≤ b.1)))) := by
  simp only [sortKey]
  rw [Prod.Lex.le_iff, Prod.Lex.le_iff]

theorem sortKey_le_elim {a b : ℕ × MatchRecord} (h : sortKey a ≤ sortKey b) :
    a.2.user_id ≤ b.2.user_id ∧
      (a.2.user_id = b.2.user_id → b.2.match_score ≤ a.2.match_score) ∧
      (a.2.user_id = b.2.user_id → a.2.match_score = b.2.match_score →
        a.1 ≤ b.1) := by
  rw [sortKey_le_iff] at h
  rcases h with h | ⟨hu, h⟩
  · exact ⟨le_of_lt h, fun he => absurd he (ne_of_lt h), fun he _ =>
      absurd he (ne_of_lt h)⟩
  · refine ⟨le_of_eq hu, fun _ => ?_, fun _ hs => ?_⟩
    · rcases h with h | ⟨hs, _⟩
      · linarith
      · linarith [neg_injective hs]
    · rcases h with h | ⟨_, hi⟩
      · rw [hs] at h
        exact absurd h (lt_irrefl _)
      · exact hi

theorem headPerKey_sublist (k : ℕ) :
    ∀ (l : List (ℕ × MatchRecord)) (seen : ℕ → ℕ),
      List.Sublist (headPerKey k l seen) l := by
  intro l
  induction l with
  | nil =>
    intro seen
    simp [headPerKey]
  | cons x rest ih =>
    intro seen
    simp only [headPerKey]
    split
    · exact (ih _).cons₂ x
    · exact (ih _).cons x

theorem headPerKey_countP (k : ℕ) (u : ℕ) :
    ∀ (l : List (ℕ × MatchRecord)) (seen : ℕ → ℕ),
      (headPerKey k l seen).countP (fun x => decide (x.2.user_id = u)) =
        min (k - seen u) (l.countP (fun x => decide (x.2.user_id = u))) := by
  intro l
  induction l with
  | nil =>
    intro seen
    simp [headPerKey]
  | cons x rest ih =>
    intro seen
    have hih := ih fun v => if v = x.2.user_id then seen v + 1 else seen v
    simp only at hih
    by_cases hxu : x.2.user_id = u
    · rw [if_pos hxu.symm] at hih
      have hcount : (x :: rest).countP (fun x => decide (x.2.user_id = u)) =
          rest.countP (fun x => decide (x.2.user_id = u)) + 1 :=
        List.countP_cons_of_pos _ _ (by simp [hxu])
      rw [hcount]
      by_cases hseen : seen x.2.user_id < k
      · simp only [headPerKey]
        rw [if_pos hseen,
          List.countP_cons_of_pos _ _ (by simp [hxu]), hih]
        rw [hxu] at hseen
        omega
      · simp only [headPerKey]
        rw [if_neg hseen, hih]
        rw [hxu] at hseen
        omega
    · rw [if_neg (fun h => hxu h.symm)] at hih
      have hcount : (x :: rest).countP (fun x => decide (x.2.user_id = u)) =
          rest.countP (fun x => decide (x.2.user_id = u)) :=
        List.countP_cons_of_neg _ _ (by simp [hxu])
      rw [hcount]
      simp only [headPerKey]
      split
      · rw [List.countP_cons_of_neg _ _ (by simp [hxu]), hih]
      · rw [hih]

theorem mem_pairRecords {U P : Type} {users : List U} {properties : List P}
    {uid : U → ℕ} {pid : P → ℕ} {score : U → P → ℚ} {r : MatchRecord} :
    r ∈ pairRecords users properties uid pid score ↔
      ∃ u ∈ users, ∃ p ∈ properties, r = ⟨uid u, pid p, score u p⟩ := by
  simp only [pairRecords, List.mem_flatMap, List.mem_map]
  constructor
  · rintro ⟨u, hu, p, hp, rfl⟩
    exact ⟨u, hu, p, hp, rfl⟩
  · rintro ⟨u, hu, p, hp, rfl⟩
    exact ⟨u, hu, p, hp, rfl⟩

theorem pairRecords_cons {U P : Type} (a : U) (us : List U)
    (properties : List P) (uid : U → ℕ) (pid : P → ℕ) (score : U → P → ℚ) :
    pairRecords (a :: us) properties uid pid score =
      (properties.map fun p => MatchRecord.mk (uid a) (pid p) (score a p)) ++
        pairRecords us properties uid pid score := by
  simp [pairRecords]

theorem countP_pairRecords_zero {U P : Type} (us : List U)
    (properties : List P) (uid : U → ℕ) (pid : P → ℕ) (score : U → P → ℚ)
    (w : ℕ) (h : ∀ u ∈ us, uid u ≠ w) :
    (pairRecords us properties uid pid score).countP
      (fun r => decide (r.user_id = w)) = 0 := by
  rw [List.countP_eq_zero]
  intro r hr
  obtain ⟨u, hu, p, _, rfl⟩ := mem_pairRecords.mp hr
  simp [h u hu]

theorem countP_pairRecords {U P : Type} (us : List U) (properties : List P)
    (uid : U → ℕ) (pid : P → ℕ) (score : U → P → ℚ) (u0 : U)
    (hmem : u0 ∈ us) (hnd : (us.map uid).Nodup) :
    (pairRecords us properties uid pid score).countP
      (fun r => decide (r.user_id = uid u0)) = properties.length := by
  induction us with
  | nil => exact absurd hmem (List.not_mem_nil u0)
  | cons a us ih =>
    rw [pairRecords_cons, List.countP_append]
    rw [List.map_cons, List.nodup_cons] at hnd
    rcases List.mem_cons.mp hmem with rfl | hmem2
    · have h1 : (properties.map fun p =>
          MatchRecord.mk (uid u0) (pid p) (score u0 p)).countP
          (fun r => decide (r.user_id = uid u0)) = properties.length := by
        rw [List.countP_map]
        rw [List.countP_eq_length]
        intro p _
        simp [Function.comp]
      have h2 : (pairRecords us properties uid pid score).countP
          (fun r => decide (r.user_id = uid u0)) = 0 := by
        apply countP_pairRecords_zero
        intro u hu he
        exact hnd.1 (he ▸ List.mem_map_of_mem uid hu)
      rw [h1, h2]
      omega
    · have h1 : (properties.map fun p =>
          MatchRecord.mk (uid a) (pid p) (score a p)).countP
          (fun r => decide (r.user_id = uid u0)) = 0 := by
        rw [List.countP_eq_zero]
        intro r hr
        obtain ⟨p, _, rfl⟩ := List.mem_map.mp hr
        have : uid a ≠ uid u0 := by
          intro he
          exact hnd.1 (he ▸ List.mem_map_of_mem uid hmem2)
        simp [this]
      rw [h1, ih hmem2 hnd.2]
      omega

theorem countP_enum (l : List MatchRecord) (p : MatchRecord → Bool) :
    l.enum.countP (fun x => p x.2) = l.countP p := by
  conv_rhs => rw [← List.enum_map_snd l]
  rw [List.countP_map]
  rfl

/-- The sorted stage of the pipeline is pairwise ordered by the sort key. -/
theorem ranked_pairwise_le {U P : Type} (users : List U) (properties : List P)
    (uid : U → ℕ) (pid : P → ℕ) (score : U → P → ℚ) (k : ℕ) :
    (rankedEnum users properties uid pid score k).Pairwise
      (fun a b => sortKey a ≤ sortKey b) := by
  have hs : ((pairRecords users properties uid pid score).enum.mergeSort
      recLE).Pairwise (fun a b => recLE a b) :=
    List.sorted_mergeSort recLE_trans recLE_total _
  have hs2 := List.Pairwise.sublist (headPerKey_sublist k _ (fun _ => 0)) hs
  exact hs2.imp fun h => by
    simpa only [recLE, decide_eq_true_eq] using h

/-- Every element of the pipeline's output is one of the sorted, enumerated
pair records. -/
theorem ranked_mem {U P : Type} {users : List U} {properties : List P}
    {uid : U → ℕ} {pid : P → ℕ} {score : U → P → ℚ} {k : ℕ}
    {x : ℕ × MatchRecord}
    (hx : x ∈ rankedEnum users properties uid pid score k) :
    x ∈ (pairRecords users properties uid pid score).enum := by
  have h1 := (headPerKey_sublist k _ (fun _ => 0)).subset hx
  exact List.mem_mergeSort.mp h1

/-- The enumeration indices surviving the pipeline are distinct. -/
theorem ranked_nodup_fst {U P : Type} (users : List U) (properties : List P)
    (uid : U → ℕ) (pid : P → ℕ) (score : U → P → ℚ) (k : ℕ) :
    ((rankedEnum users properties uid pid score k).map Prod.fst).Nodup := by
  have hperm : List.Perm
      (((pairRecords users properties uid pid score).enum.mergeSort
        recLE).map Prod.fst)
      ((pairRecords users properties uid pid score).enum.map Prod.fst) :=
    (List.mergeSort_perm _ recLE).map Prod.fst
  have hnd : (((pairRecords users properties uid pid score).enum.mergeSort
      recLE).map Prod.fst).Nodup := by
    rw [hperm.nodup_iff, List.enum_map_fst]
    exact List.nodup_range _
  exact ((headPerKey_sublist k _ (fun _ => 0)).map Prod.fst).nodup hnd

theorem compute_all_matches_ok {U P : Type} {users : List U}
    {properties : List P} {uid : U → ℕ} {pid : P → ℕ} {score : U → P → ℚ}
    {k : ℕ} {out : List MatchRecord}
    (h : compute_all_matches users properties uid pid score k = .ok out) :
    out = (rankedEnum users properties uid pid score k).map Prod.snd := by
  simp only [compute_all_matches] at h
  split at h
  · exact absurd h (by simp)
  · exact (Except.ok.inj h).symm

/-- C2 (amended: holds whenever the call succeeds, which requires both
collections nonempty — on an empty input the ranking step raises, see C8 —
and for users collections with pairwise-distinct user ids, the stated
data-model invariant): in the output, every user present in the input has
exactly `min top_k (properties.length)` records; within a user's records
the score is non-increasing; every record comes from the cross product;
and user ids are in ascending order across the output. -/
theorem C2_rank {U P : Type} (users : List U) (properties : List P)
    (uid : U → ℕ) (pid : P → ℕ) (score : U → P → ℚ) (k : ℕ)
    (out : List MatchRecord) (hk : 0 < k)
    (hnd : (users.map uid).Nodup)
    (hok : compute_all_matches users properties uid pid score k =
      Except.ok out) :
    (∀ u0 ∈ users,
      (out.filter fun r => decide (r.user_id = uid u0)).length =
        min k properties.length) ∧
    out.Pairwise (fun a b =>
      a.user_id = b.user_id → b.match_score ≤ a.match_score) ∧
    (∀ r ∈ out, ∃ u ∈ users, ∃ p ∈ properties,
      r = ⟨uid u, pid p, score u p⟩) ∧
    out.Pairwise (fun a b => a.user_id ≤ b.user_id) := by
  have hout := compute_all_matches_ok hok
  subst hout
  refine ⟨?_, ?_, ?_, ?_⟩
  · intro u0 hu0
    rw [← List.countP_eq_length_filter, List.countP_map]
    have hcomp : ((fun r => decide (r.user_id = uid u0)) ∘
        (Prod.snd : ℕ × MatchRecord → MatchRecord)) =
        fun x : ℕ × MatchRecord => decide (x.2.user_id = uid u0) := rfl
    rw [hcomp]
    simp only [rankedEnum]
    rw [headPerKey_countP k (uid u0)
      ((pairRecords users properties uid pid score).enum.mergeSort recLE)
      (fun _ => 0)]
    rw [List.Perm.countP_eq _ (List.mergeSort_perm _ recLE)]
    have h4 : (pairRecords users properties uid pid score).enum.countP
        (fun x => decide (x.2.user_id = uid u0)) = properties.length :=
      (countP_enum _ fun r => decide (r.user_id = uid u0)).trans
        (countP_pairRecords users properties uid pid score u0 hu0 hnd)
    rw [h4]
    omega
  · rw [List.pairwise_map]
    exact (ranked_pairwise_le users properties uid pid score k).imp
      fun h hu => (sortKey_le_elim h).2.1 hu
  · intro r hr
    obtain ⟨x, hx, rfl⟩ := List.mem_map.mp hr
    exact mem_pairRecords.mp
      (List.getElem?_mem (List.mem_enum_iff_getElem?.mp (ranked_mem hx)))
  · rw [List.pairwise_map]
    exact (ranked_pairwise_le users properties uid pid score k).imp
      fun h => (sortKey_le_elim h).1

/-- C2 counterexample: one user and an empty property collection — the
claim asks for a successful, empty output for that user, but the ranking
step raises instead. -/
theorem C2_counterexample :
    compute_all_matches ([2] : List ℕ) ([] : List ℕ) id id (fun _ _ => 0) 3 =
      Except.error "KeyError: user_id" ∧
    ∀ out : List MatchRecord,
      compute_all_matches ([2] : List ℕ) ([] : List ℕ) id id
        (fun _ _ => 0) 3 ≠ Except.ok out := by
  refine ⟨rfl, fun out h => ?_⟩
  rw [show compute_all_matches ([2] : List ℕ) ([] : List ℕ) id id
      (fun _ _ => 0) 3 = Except.error "KeyError: user_id" from rfl] at h
  exact Except.noConfusion h

/-- C2 witness: a single user `0` and property `7` with constant score
`5`, `top_k = 5`: the output is the single record and all four properties
hold. -/
theorem C2_witness :
    (∀ u0 ∈ ([0] : List ℕ),
      (([⟨0, 7, 5⟩] : List MatchRecord).filter fun r =>
        decide (r.user_id = id u0)).length = min 5 ([7] : List ℕ).length) ∧
    ([⟨0, 7, 5⟩] : List MatchRecord).Pairwise (fun a b =>
      a.user_id = b.user_id → b.match_score ≤ a.match_score) ∧
    (∀ r ∈ ([⟨0, 7, 5⟩] : List MatchRecord), ∃ u ∈ ([0] : List ℕ),
      ∃ p ∈ ([7] : List ℕ), r = ⟨id u, id p, (fun _ _ => (5:ℚ)) u p⟩) ∧
    ([⟨0, 7, 5⟩] : List MatchRecord).Pairwise
      (fun a b => a.user_id ≤ b.user_id) :=
  C2_rank [0] [7] id id (fun _ _ => 5) 5 [⟨0, 7, 5⟩]
    (by norm_num) (by simp)
    (by simp [compute_all_matches, rankedEnum, pairRecords, headPerKey])

/-- C3: within the ranked output, two records with the same `user_id` and
equal `match_score` keep the original pair-enumeration order: the indices
carried through the pipeline are the enumeration positions of the pair
loop, they are strictly increasing among tied records, and the function's
output is exactly the record part of that pipeline. -/
theorem C3_stable_ties {U P : Type} (users : List U) (properties : List P)
    (uid : U → ℕ) (pid : P → ℕ) (score : U → P → ℚ) (k : ℕ) :
    (rankedEnum users properties uid pid score k).Pairwise
      (fun a b => a.2.user_id = b.2.user_id →
        a.2.match_score = b.2.match_score → a.1 < b.1) ∧
    (∀ x ∈ rankedEnum users properties uid pid score k,
      (pairRecords users properties uid pid score)[x.1]? = some x.2) ∧
    (∀ out, compute_all_matches users properties uid pid score k =
        Except.ok out →
      out = (rankedEnum users properties uid pid score k).map Prod.snd) := by
  refine ⟨?_, ?_, fun out h => compute_all_matches_ok h⟩
  · have h1 := ranked_pairwise_le users properties uid pid score k
    have h2 : (rankedEnum users properties uid pid score k).Pairwise
        (fun a b : ℕ × MatchRecord => a.1 ≠ b.1) := by
      have hnd := ranked_nodup_fst users properties uid pid score k
      rw [List.Nodup, List.pairwise_map] at hnd
      exact hnd
    refine (h1.and h2).imp ?_
    intro a b hab hu hs
    exact lt_of_le_of_ne ((sortKey_le_elim hab.1).2.2 hu hs) hab.2
  · intro x hx
    exact List.mem_enum_iff_getElem?.mp (ranked_mem hx)

/-- C8 (amended: on an empty properties or users collection the pair loop
itself yields zero records without error, but the ranking step then fails
on the empty record table — `pd.DataFrame([])` has no `user_id` column to
sort on — so `compute_all_matches` raises instead of returning an empty
result; this matches the spec's error-handling section, which lists empty
input collections as fatal). -/
theorem C8_empty_inputs {U P : Type} (users : List U) (properties : List P)
    (uid : U → ℕ) (pid : P → ℕ) (score : U → P → ℚ) (k : ℕ) :
    (pairRecords users ([] : List P) uid pid score = [] ∧
      compute_all_matches users ([] : List P) uid pid score k =
        Except.error "KeyError: user_id") ∧
    (pairRecords ([] : List U) properties uid pid score = [] ∧
      compute_all_matches ([] : List U) properties uid pid score k =
        Except.error "KeyError: user_id") := by
  have he : pairRecords users ([] : List P) uid pid score = [] := by
    induction users with
    | nil => rfl
    | cons a us ih => rw [pairRecords_cons, ih, List.map_nil, List.nil_append]
  refine ⟨⟨he, ?_⟩, rfl, rfl⟩
  simp only [compute_all_matches, he]
  rfl

/-- C8 counterexample: one user and no properties — the claim says the
user yields zero records without an error, but the call errors out. -/
theorem C8_counterexample :
    compute_all_matches ([0] : List ℕ) ([] : List ℕ) id id (fun _ _ => 0) 5 =
      Except.error "KeyError: user_id" ∧
    ∀ out : List MatchRecord,
      compute_all_matches ([0] : List ℕ) ([] : List ℕ) id id
        (fun _ _ => 0) 5 ≠ Except.ok out := by
  refine ⟨rfl, fun out h => ?_⟩
  rw [show compute_all_matches ([0] : List ℕ) ([] : List ℕ) id id
      (fun _ _ => 0) 5 = Except.error "KeyError: user_id" from rfl] at h
  exact Except.noConfusion h

end PropertyMatching
